import Mathlib

/-!
HeadHunt SEO scraper (src/HeadHunt/headhunt.js): a shallow embedding of the
metadata-extraction pipeline, together with theorems settling the
specification claims against it.

Modelling conventions, chosen to mirror the JavaScript source:
* a JavaScript object is an insertion-ordered association list
  (`objSet`/`objGet` implement `obj[k] = v` and `obj[k]`);
* JavaScript truthiness of a string is a non-emptiness test, and
  `x || y` on nullable strings is `jsOr`;
* cheerio selections are lists of element records carrying the attributes
  the source reads; `attr(...)` on a multi-element selection reads the
  first matching element, which is `List.find?`;
* the two external collaborators the extractors call are parameters of the
  analysis context `Ctx`: `host` models `new URL(s).hostname` (`none` when
  the `URL` constructor throws) and `parse` models `JSON.parse` (`none`
  when it throws);
* string helpers (`strStarts`, `strContains`, `splitColon`, `replaceFirst`,
  `strTrim`, `toLowerStr`) are structural re-implementations of the
  JavaScript string methods the source uses, so that all definitions
  evaluate by kernel reduction.
-/

namespace HeadHunt

/-- JavaScript `a || b` on nullable strings: `a` when truthy (present and
non-empty), otherwise `b`. -/
def jsOr (a b : Option String) : Option String :=
  match a with
  | some s => if s == "" then b else some s
  | none => b

/-- JavaScript `x || null` for a nullable string (used all over the source
to turn missing or empty attributes into `null`). -/
def orNull (a : Option String) : Option String := jsOr a none

/-- Assignment `obj[k] = v` on a JavaScript object modelled as an
insertion-ordered association list: overwrite in place when the key is
already present, append otherwise. -/
def objSet {α : Type} (k : String) (v : α) (m : List (String × α)) : List (String × α) :=
  if m.any (fun p => p.1 == k) then m.map (fun p => if p.1 == k then (k, v) else p)
  else m ++ [(k, v)]

/-- Read `obj[k]` from a JavaScript object modelled as an association
list: the value at the first (and, by construction, only) entry with key
`k`. -/
def objGet {α : Type} (k : String) : List (String × α) → Option α
  | [] => none
  | p :: ps => if p.1 == k then some p.2 else objGet k ps

/-- JavaScript `s.startsWith(p)`. -/
def strStarts (s p : String) : Bool := List.isPrefixOf p.data s.data

/-- JavaScript `s.includes(c)` for a single character, as used by
`property.includes(':')` in the Open Graph extractor. -/
def containsChar (s : String) (c : Char) : Bool := s.data.contains c

/-- Auxiliary substring search on character lists. -/
def hasSub (pat : List Char) : List Char → Bool
  | [] => pat.isEmpty
  | c :: cs => List.isPrefixOf pat (c :: cs) || hasSub pat cs

/-- JavaScript `s.includes(pat)` for a string pattern, as used by the
doctype classifier and the `rel` flag checks. -/
def strContains (s pat : String) : Bool := hasSub pat.data s.data

/-- Split a character list at every occurrence of a separator character. -/
def splitChar (sep : Char) : List Char → List (List Char)
  | [] => [[]]
  | c :: cs =>
    if c == sep then [] :: splitChar sep cs
    else
      match splitChar sep cs with
      | [] => [[c]]
      | g :: gs => (c :: g) :: gs

/-- JavaScript `s.split(':')`, as used by the Open Graph nesting rule. -/
def splitColon (s : String) : List String :=
  (splitChar ':' s.data).map (fun l => String.mk l)

/-- JavaScript `s.split('/')`, as used by the microdata itemtype handling. -/
def splitSlash (s : String) : List String :=
  (splitChar '/' s.data).map (fun l => String.mk l)

/-- Replace the first occurrence of `pat` by `rep`, on character lists
(JavaScript `String.prototype.replace` with a string pattern). -/
def replFirstAux (pat rep : List Char) : List Char → List Char
  | [] => []
  | c :: cs =>
    if List.isPrefixOf pat (c :: cs) then rep ++ (c :: cs).drop pat.length
    else c :: replFirstAux pat rep cs

/-- JavaScript `s.replace(pat, rep)` (first occurrence only), as used to
strip the `og:` and `twitter:` prefixes. -/
def replaceFirst (s pat rep : String) : String :=
  String.mk (replFirstAux pat.data rep.data s.data)

/-- ASCII lower-casing of a string, modelling `s.toLowerCase()` on the
attribute values the source inspects. -/
def toLowerStr (s : String) : String := String.mk (s.data.map Char.toLower)

/-- JavaScript `s.trim()`: drop leading and trailing whitespace. -/
def strTrim (s : String) : String :=
  String.mk (((s.data.dropWhile Char.isWhitespace).reverse.dropWhile Char.isWhitespace).reverse)

/-- Case-insensitive prefix test on character lists, for the
case-insensitive doctype regular expression. -/
def isPrefCI : List Char → List Char → Bool
  | [], _ => true
  | _ :: _, [] => false
  | a :: as, b :: bs => (a.toLower == b.toLower) && isPrefCI as bs

/-- Given a character list starting (case-insensitively) with `<!DOCTYPE`,
extend the match over `[^>]*>`; `none` when no closing `>` follows
(headhunt.js line 177 / 195: the regex `<!DOCTYPE[^>]*>` with flag `i`). -/
def takeDoctypeAt (l : List Char) : Option (List Char) :=
  let pre := l.take 9
  let rest := l.drop 9
  let body := rest.takeWhile (fun c => !(c == '>'))
  match rest.drop body.length with
  | '>' :: _ => some (pre ++ body ++ ['>'])
  | _ => none

/-- Scan for the leftmost match of `<!DOCTYPE[^>]*>` (case-insensitive). -/
def findDoctypeAux : List Char → Option (List Char)
  | [] => none
  | c :: cs =>
    if isPrefCI "<!DOCTYPE".data (c :: cs) then
      match takeDoctypeAt (c :: cs) with
      | some r => some r
      | none => findDoctypeAux cs
    else findDoctypeAux cs

/-- The doctype string of the raw markup:
`this.html.match(/<!DOCTYPE[^>]*>/i)?.[0]` (headhunt.js lines 177 and 195),
`none` when the regex does not match. -/
def findDoctype (html : String) : Option String :=
  (findDoctypeAux html.data).map (fun l => String.mk l)

/-! ## The parsed document

One record per element kind the extractors query, each carrying exactly the
attributes the source reads.  An `Option String` field is the attribute
(`none` when the attribute is absent); text contents are plain strings
(cheerio `.text()`/`.html()` return a string for an existing element). -/

/-- A `<meta>` element. -/
structure MetaTag where
  property : Option String
  name : Option String
  content : Option String
  charset : Option String
  httpEquiv : Option String
deriving DecidableEq, Repr

/-- A `<link>` element. -/
structure LinkTag where
  rel : Option String
  href : Option String
  hreflang : Option String
  typeAttr : Option String
  media : Option String
deriving DecidableEq, Repr

/-- A `<script>` element; `content` is its inner text (`.html()`). -/
structure ScriptTag where
  src : Option String
  typeAttr : Option String
  content : String
deriving DecidableEq, Repr

/-- An `<a>` element; `text` is its `.text()`. -/
structure Anchor where
  href : Option String
  rel : Option String
  text : String
  title : Option String
deriving DecidableEq, Repr

/-- An `<img>` element. -/
structure Img where
  src : Option String
  alt : Option String
  loading : Option String
  srcset : Option String
  title : Option String
deriving DecidableEq, Repr

/-- A heading element `h1`..`h6`; `level` is the digit of the tag name. -/
structure Heading where
  level : Nat
  text : String
  id : Option String
deriving DecidableEq, Repr

/-- An element carrying `itemscope`: its `itemtype` attribute and, for each
descendant carrying `itemprop`, the triple (itemprop name, `content`
attribute, text content). -/
structure ItemScope where
  itemtype : Option String
  props : List (String × Option String × String)
deriving DecidableEq, Repr

/-- The parsed document: the element lists the nine extractors query, in
document order, plus the raw markup text. -/
structure Doc where
  html : String
  titleText : String
  htmlLang : Option String
  metas : List MetaTag
  linkTags : List LinkTag
  scripts : List ScriptTag
  anchors : List Anchor
  imgs : List Img
  headings : List Heading
  styleCount : Nat
  itemscopes : List ItemScope
deriving DecidableEq, Repr

/-- A parsed JSON value, the result type of the external `JSON.parse`
collaborator. -/
inductive JsonVal where
  | jnull : JsonVal
  | jbool : Bool → JsonVal
  | jnum : Int → JsonVal
  | jstr : String → JsonVal
  | jarr : List JsonVal → JsonVal
  | jobj : List (String × JsonVal) → JsonVal

/-- The analysis context: the parsed document, the exact input URL
(`this.url`), and the two external collaborators — `host` models
`new URL(s).hostname` (`none` when the constructor throws) and `parse`
models `JSON.parse` (`none` when it throws). -/
structure Ctx where
  doc : Doc
  url : String
  host : String → Option String
  parse : String → Option JsonVal

/-! ## Basic metadata extractor (headhunt.js lines 73-94) -/

/-- The `basic` section payload. -/
structure BasicSection where
  title : Option String
  metaDescription : Option String
  canonical : Option String
  robots : Option String
  viewport : Option String
  charset : Option String
  language : Option String
  hreflang : List (String × Option String)
deriving DecidableEq, Repr

/-- Lines 74-93 of headhunt.js: each field is the relevant attribute of the
first matching element, `|| null`; `hreflang` collects every
`link[rel="alternate"][hreflang]` in document order. -/
def basicSection (doc : Doc) : BasicSection :=
  { title := orNull (some doc.titleText)
  , metaDescription :=
      orNull ((doc.metas.find? (fun m => m.name == some "description")).bind (fun m => m.content))
  , canonical :=
      orNull ((doc.linkTags.find? (fun t => t.rel == some "canonical")).bind (fun t => t.href))
  , robots :=
      orNull ((doc.metas.find? (fun m => m.name == some "robots")).bind (fun m => m.content))
  , viewport :=
      orNull ((doc.metas.find? (fun m => m.name == some "viewport")).bind (fun m => m.content))
  , charset :=
      jsOr ((doc.metas.find? (fun m => m.charset.isSome)).bind (fun m => m.charset))
        (orNull ((doc.metas.find? (fun m => m.httpEquiv == some "Content-Type")).bind
          (fun m => m.content)))
  , language := orNull doc.htmlLang
  , hreflang :=
      doc.linkTags.filterMap (fun t =>
        if t.rel == some "alternate" && t.hreflang.isSome then
          some (t.hreflang.getD "", t.href)
        else none) }

/-! ## Open Graph extractor (headhunt.js lines 96-116) -/

/-- A value stored in the `ogTags` object: either a flat string or one
level of nested mapping. -/
inductive OGVal where
  | str : String → OGVal
  | map : List (String × String) → OGVal
deriving DecidableEq, Repr

/-- One iteration of the `meta[property^="og:"]` loop (lines 99-113).
`ogTags[parent][child] = content` with a truthy string at `ogTags[parent]`
is a JavaScript property assignment on a string primitive — in sloppy mode
a silent no-op — so that branch leaves the object unchanged. -/
def ogStep (ogTags : List (String × OGVal)) (m : MetaTag) : List (String × OGVal) :=
  match m.property, m.content with
  | some prop, some content =>
    let property := replaceFirst prop "og:" ""
    if property != "" && content != "" then
      if containsChar property ':' then
        match splitColon property with
        | parent :: child :: _ =>
          match objGet parent ogTags with
          | some (OGVal.str s) =>
            if s != "" then ogTags
            else objSet parent (OGVal.map (objSet child content [])) ogTags
          | some (OGVal.map kvs) => objSet parent (OGVal.map (objSet child content kvs)) ogTags
          | none => objSet parent (OGVal.map (objSet child content [])) ogTags
        | _ => ogTags
      else objSet property (OGVal.str content) ogTags
    else ogTags
  | _, _ => ogTags

/-- Lines 96-116: fold `ogStep` over the `meta[property^="og:"]`
selection. -/
def openGraphSection (doc : Doc) : List (String × OGVal) :=
  (doc.metas.filter (fun m => strStarts (m.property.getD "") "og:")).foldl ogStep []

/-! ## Twitter card extractor (headhunt.js lines 118-131) -/

/-- Lines 118-131: flat mapping from `twitter:`-stripped name to content. -/
def twitterSection (doc : Doc) : List (String × String) :=
  (doc.metas.filter (fun m => strStarts (m.name.getD "") "twitter:")).foldl
    (fun tags m =>
      match m.name, m.content with
      | some n, some content =>
        let name := replaceFirst n "twitter:" ""
        if name != "" && content != "" then objSet name content tags else tags
      | _, _ => tags) []

/-! ## Schema extractor (headhunt.js lines 133-173) -/

/-- The `schema` section payload. -/
structure SchemaSection where
  jsonLd : List JsonVal
  microdata : List (String × List (List (String × String)))

/-- The inner contents of every `script[type="application/ld+json"]`
block, in document order. -/
def ldScriptContents (doc : Doc) : List String :=
  (doc.scripts.filter (fun s => s.typeAttr == some "application/ld+json")).map
    (fun s => s.content)

/-- `itemtype.split('/').pop()` (line 157). -/
def lastPathSeg (s : String) : String :=
  match (splitSlash s).reverse with
  | seg :: _ => seg
  | [] => ""

/-- Lines 152-169: the microdata sweep over `[itemscope]` elements. -/
def microdataOf (doc : Doc) : List (String × List (List (String × String))) :=
  doc.itemscopes.foldl (fun md it =>
    match it.itemtype with
    | some itemtype =>
      let ty := lastPathSeg itemtype
      let cur := (objGet ty md).getD []
      let item := it.props.foldl (fun item q =>
        objSet q.1 (jsOr q.2.1 (some q.2.2) |>.getD "") item) []
      objSet ty (cur ++ [item]) md
    | none => md) []

/-- Lines 133-173: JSON-LD blocks are parsed and pushed in document
order; a block whose content is falsy or fails to parse contributes
nothing (the `try`/`catch` swallows the failure). -/
def schemaSection (ctx : Ctx) : SchemaSection :=
  { jsonLd :=
      (ldScriptContents ctx.doc).foldl (fun acc c =>
        if c != "" then
          match ctx.parse c with
          | some v => acc ++ [v]
          | none => acc
        else acc) []
  , microdata := microdataOf ctx.doc }

/-! ## Technical metadata extractor (headhunt.js lines 175-202) -/

/-- The `technical` section payload. -/
structure TechnicalSection where
  doctype : Option String
  htmlVersion : String
  hasViewport : Bool
  hasCharset : Bool
  hasCanonical : Bool
  hasRobots : Bool
  hasSitemap : Bool
  hasRSS : Bool
  hasAMP : Bool
  hasMobileAlternate : Bool
  sitemapUrl : Option String
  rssUrl : Option String
deriving DecidableEq, Repr

/-- Lines 197-201: classify a doctype string, first match wins:
`HTML 4` before `XHTML` before (`HTML5` or the exact minimal doctype). -/
def classifyDoctype (doctype : String) : String :=
  if strContains doctype "HTML 4" then "HTML4"
  else if strContains doctype "XHTML" then "XHTML"
  else if strContains doctype "HTML5" || doctype == "<!DOCTYPE html>" then "HTML5"
  else "Unknown"

/-- Lines 194-202: extract the doctype from the raw markup (empty string
when the regex does not match) and classify it. -/
def getHtmlVersion (html : String) : String :=
  classifyDoctype ((findDoctype html).getD "")

/-- Lines 175-192. -/
def technicalSection (doc : Doc) : TechnicalSection :=
  { doctype := findDoctype doc.html
  , htmlVersion := getHtmlVersion doc.html
  , hasViewport := doc.metas.any (fun m => m.name == some "viewport")
  , hasCharset :=
      doc.metas.any (fun m => m.charset.isSome)
        || doc.metas.any (fun m => m.httpEquiv == some "Content-Type")
  , hasCanonical := doc.linkTags.any (fun t => t.rel == some "canonical")
  , hasRobots := doc.metas.any (fun m => m.name == some "robots")
  , hasSitemap := doc.linkTags.any (fun t => t.rel == some "sitemap")
  , hasRSS := doc.linkTags.any (fun t => t.typeAttr == some "application/rss+xml")
  , hasAMP := doc.linkTags.any (fun t => t.rel == some "amphtml")
  , hasMobileAlternate := doc.linkTags.any (fun t => t.rel == some "alternate" && t.media.isSome)
  , sitemapUrl :=
      orNull ((doc.linkTags.find? (fun t => t.rel == some "sitemap")).bind (fun t => t.href))
  , rssUrl :=
      orNull ((doc.linkTags.find? (fun t => t.typeAttr == some "application/rss+xml")).bind
        (fun t => t.href)) }

/-! ## Link extractor (headhunt.js lines 204-265) -/

/-- One link record (lines 219-227). -/
structure LinkRec where
  url : String
  text : Option String
  rel : Option String
  isNofollow : Bool
  isSponsored : Bool
  isUGC : Bool
  title : Option String
deriving DecidableEq, Repr

/-- The `links` section payload. -/
structure LinksSection where
  internal : List LinkRec
  external : List LinkRec
  nofollow : List LinkRec
  broken : List LinkRec
deriving DecidableEq, Repr

/-- Build the link record for an anchor with href `href`
(lines 213-227). -/
def mkLink (a : Anchor) (href : String) : LinkRec :=
  let rel := a.rel.getD ""
  let text := strTrim a.text
  { url := href
  , text := orNull (some text)
  , rel := orNull (some rel)
  , isNofollow := strContains (toLowerStr rel) "nofollow"
  , isSponsored := strContains (toLowerStr rel) "sponsored"
  , isUGC := strContains (toLowerStr rel) "ugc"
  , title := orNull a.title }

/-- One iteration of the `a[href]` loop (lines 212-254): skip falsy,
`#`-prefixed and `javascript:`-prefixed hrefs; classify `http`-prefixed
hrefs by comparing hostnames (any `URL` constructor failure lands in
`external`); everything else is `internal`; then, independently, track
nofollow links. -/
def processAnchor (ctx : Ctx) (st : LinksSection) (a : Anchor) : LinksSection :=
  match a.href with
  | none => st
  | some href =>
    if href == "" then st
    else
      let link := mkLink a href
      if strStarts href "#" || strStarts href "javascript:" then st
      else
        let st1 :=
          if strStarts href "http" then
            match ctx.host href, ctx.host ctx.url with
            | some u, some b =>
              if u == b then { st with internal := st.internal ++ [link] }
              else { st with external := st.external ++ [link] }
            | _, _ => { st with external := st.external ++ [link] }
          else { st with internal := st.internal ++ [link] }
        if link.isNofollow then { st1 with nofollow := st1.nofollow ++ [link] } else st1

/-- Lines 212-254: fold the anchor loop over the `a[href]` selection. -/
def collectLinks (ctx : Ctx) : LinksSection :=
  (ctx.doc.anchors.filter (fun a => a.href.isSome)).foldl (processAnchor ctx)
    { internal := [], external := [], nofollow := [], broken := [] }

/-- `Array.from(new Set(arr.map(l => l.url)))` (line 257): the distinct
url strings in order of first occurrence. -/
def setFrom (l : List String) : List String :=
  l.foldl (fun acc u => if acc.contains u then acc else acc ++ [u]) []

/-- Lines 257-258: deduplicate by `url`, keeping for each distinct url the
first record bearing it. -/
def uniqueLinks (arr : List LinkRec) : List LinkRec :=
  (setFrom (arr.map (fun l => l.url))).filterMap
    (fun url => arr.find? (fun l => l.url == url))

/-- Lines 204-265: collect, then deduplicate `internal`, `external` and
`nofollow`; `broken` is initialised empty and never touched. -/
def linksSection (ctx : Ctx) : LinksSection :=
  let links := collectLinks ctx
  { internal := uniqueLinks links.internal
  , external := uniqueLinks links.external
  , nofollow := uniqueLinks links.nofollow
  , broken := links.broken }

/-! ## Headings extractor (headhunt.js lines 267-300) -/

/-- One recorded heading. -/
structure HeadingRec where
  text : String
  id : Option String
  length : Nat
deriving DecidableEq, Repr

/-- The per-level counts object. -/
structure HeadingCounts where
  h1 : Nat
  h2 : Nat
  h3 : Nat
  h4 : Nat
  h5 : Nat
  h6 : Nat
deriving DecidableEq, Repr

/-- The `headings` section payload. -/
structure HeadingsSection where
  h1 : List HeadingRec
  h2 : List HeadingRec
  h3 : List HeadingRec
  h4 : List HeadingRec
  h5 : List HeadingRec
  h6 : List HeadingRec
  counts : HeadingCounts
deriving DecidableEq, Repr

/-- Lines 283-294: the recorded headings of one level — trimmed non-empty
texts with optional id and character length. -/
def headingsAt (doc : Doc) (lvl : Nat) : List HeadingRec :=
  (doc.headings.filter (fun h => h.level == lvl)).filterMap (fun h =>
    let text := strTrim h.text
    if text != "" then some { text := text, id := orNull h.id, length := text.data.length }
    else none)

/-- Lines 267-300. -/
def headingsSection (doc : Doc) : HeadingsSection :=
  { h1 := headingsAt doc 1
  , h2 := headingsAt doc 2
  , h3 := headingsAt doc 3
  , h4 := headingsAt doc 4
  , h5 := headingsAt doc 5
  , h6 := headingsAt doc 6
  , counts :=
    { h1 := (headingsAt doc 1).length
    , h2 := (headingsAt doc 2).length
    , h3 := (headingsAt doc 3).length
    , h4 := (headingsAt doc 4).length
    , h5 := (headingsAt doc 5).length
    , h6 := (headingsAt doc 6).length } }

/-! ## Images extractor (headhunt.js lines 302-349) -/

/-- One recorded image. -/
structure ImgRec where
  src : String
  alt : Option String
  hasAlt : Bool
  isLazy : Bool
  srcset : Option String
  title : Option String
deriving DecidableEq, Repr

/-- The running counts object. -/
structure ImgCounts where
  total : Nat
  withAlt : Nat
  withoutAlt : Nat
  lazyLoaded : Nat
deriving DecidableEq, Repr

/-- The `images` section payload. -/
structure ImagesSection where
  withAlt : List ImgRec
  withoutAlt : List ImgRec
  lazyLoaded : List ImgRec
  counts : ImgCounts
deriving DecidableEq, Repr

/-- One iteration of the `img` loop (lines 315-346): skip falsy `src`;
bucket by `hasAlt`, additionally by `isLazy`, incrementing the
corresponding counts. -/
def imgStep (st : ImagesSection) (e : Img) : ImagesSection :=
  let src := e.src.getD ""
  let alt := e.alt.getD ""
  if src == "" then st
  else
    let image : ImgRec :=
      { src := src
      , alt := orNull (some alt)
      , hasAlt := alt != ""
      , isLazy := e.loading == some "lazy"
      , srcset := orNull e.srcset
      , title := orNull e.title }
    let st1 := { st with counts := { st.counts with total := st.counts.total + 1 } }
    let st2 :=
      if image.hasAlt then
        { st1 with withAlt := st1.withAlt ++ [image]
                 , counts := { st1.counts with withAlt := st1.counts.withAlt + 1 } }
      else
        { st1 with withoutAlt := st1.withoutAlt ++ [image]
                 , counts := { st1.counts with withoutAlt := st1.counts.withoutAlt + 1 } }
    if image.isLazy then
      { st2 with lazyLoaded := st2.lazyLoaded ++ [image]
               , counts := { st2.counts with lazyLoaded := st2.counts.lazyLoaded + 1 } }
    else st2

/-- Lines 302-349. -/
def imagesSection (doc : Doc) : ImagesSection :=
  doc.imgs.foldl imgStep
    { withAlt := [], withoutAlt := [], lazyLoaded := [], counts := ⟨0, 0, 0, 0⟩ }

/-! ## Performance metrics extractor (headhunt.js lines 351-393) -/

/-- The page-weight estimate (lines 388-392). -/
structure PageWeight where
  html : Nat
  estimatedExternalResources : Nat
  totalEstimated : Nat
deriving DecidableEq, Repr

/-- The `link[rel="stylesheet"]` selection. -/
def stylesheetLinks (doc : Doc) : List LinkTag :=
  doc.linkTags.filter (fun t => t.rel == some "stylesheet")

/-- The `script[src]` selection (src attribute present). -/
def externalScripts (doc : Doc) : List ScriptTag :=
  doc.scripts.filter (fun s => s.src.isSome)

/-- The `img[src]` selection (src attribute present). -/
def srcImages (doc : Doc) : List Img :=
  doc.imgs.filter (fun i => i.src.isSome)

/-- Lines 367-393: raw UTF-8 byte length of the markup plus 15000 per
stylesheet, 50000 per external script and 100000 per `img[src]`,
accumulated by three `.each` loops. -/
def estimatePageWeight (doc : Doc) : PageWeight :=
  let htmlSize := doc.html.utf8ByteSize
  let e1 := (stylesheetLinks doc).foldl (fun acc _ => acc + 15000) 0
  let e2 := (externalScripts doc).foldl (fun acc _ => acc + 50000) e1
  let e3 := (srcImages doc).foldl (fun acc _ => acc + 100000) e2
  { html := htmlSize
  , estimatedExternalResources := e3
  , totalEstimated := htmlSize + e3 }

/-- The `performance` section payload. -/
structure PerfSection where
  totalImages : Nat
  totalScripts : Nat
  totalStylesheets : Nat
  totalInlineScripts : Nat
  totalInlineStyles : Nat
  totalLinks : Nat
  totalHeadings : Nat
  htmlSize : Nat
  estimatedPageWeight : PageWeight
deriving DecidableEq, Repr

/-- Lines 351-365. -/
def performanceSection (doc : Doc) : PerfSection :=
  { totalImages := doc.imgs.length
  , totalScripts := (externalScripts doc).length
  , totalStylesheets := (stylesheetLinks doc).length
  , totalInlineScripts := (doc.scripts.filter (fun s => s.src.isNone)).length
  , totalInlineStyles := doc.styleCount
  , totalLinks := (doc.anchors.filter (fun a => a.href.isSome)).length
  , totalHeadings := doc.headings.length
  , htmlSize := doc.html.utf8ByteSize
  , estimatedPageWeight := estimatePageWeight doc }

/-! ## Pipeline orchestration (headhunt.js lines 22-33 and 395-421) -/

/-- The nine category names (headhunt.js lines 23-33). -/
def SEO_CATEGORIES.BASIC : String := "basic"

def SEO_CATEGORIES.OPEN_GRAPH : String := "open_graph"

def SEO_CATEGORIES.TWITTER : String := "twitter"

def SEO_CATEGORIES.SCHEMA : String := "schema"

def SEO_CATEGORIES.TECHNICAL : String := "technical"

def SEO_CATEGORIES.LINKS : String := "links"

def SEO_CATEGORIES.HEADINGS : String := "headings"

def SEO_CATEGORIES.IMAGES : String := "images"

def SEO_CATEGORIES.PERFORMANCE : String := "performance"

/-- A section payload, tagged by category shape. -/
inductive Section where
  | basicS : BasicSection → Section
  | ogS : List (String × OGVal) → Section
  | twitterS : List (String × String) → Section
  | schemaS : SchemaSection → Section
  | technicalS : TechnicalSection → Section
  | linksS : LinksSection → Section
  | headingsS : HeadingsSection → Section
  | imagesS : ImagesSection → Section
  | perfS : PerfSection → Section

/-- The `seo` mapping of the report: a JavaScript object from category
name to section payload. -/
abbrev Seo := List (String × Section)

/-- The report object (`this.metadata`); the capture timestamp is real
time and is not modelled. -/
structure Report where
  url : String
  seo : Seo

/-- Each extractor method ends with the single shared-state write
`this.metadata.seo[CATEGORY] = payload`; its Lean counterpart is that
write. -/
def extractBasicMetadata (ctx : Ctx) (seo : Seo) : Seo :=
  objSet SEO_CATEGORIES.BASIC (Section.basicS (basicSection ctx.doc)) seo

/-- Lines 96-116. -/
def extractOpenGraphMetadata (ctx : Ctx) (seo : Seo) : Seo :=
  objSet SEO_CATEGORIES.OPEN_GRAPH (Section.ogS (openGraphSection ctx.doc)) seo

/-- Lines 118-131. -/
def extractTwitterMetadata (ctx : Ctx) (seo : Seo) : Seo :=
  objSet SEO_CATEGORIES.TWITTER (Section.twitterS (twitterSection ctx.doc)) seo

/-- Lines 133-173. -/
def extractSchemaMetadata (ctx : Ctx) (seo : Seo) : Seo :=
  objSet SEO_CATEGORIES.SCHEMA (Section.schemaS (schemaSection ctx)) seo

/-- Lines 175-192. -/
def extractTechnicalMetadata (ctx : Ctx) (seo : Seo) : Seo :=
  objSet SEO_CATEGORIES.TECHNICAL (Section.technicalS (technicalSection ctx.doc)) seo

/-- Lines 204-265. -/
def extractLinks (ctx : Ctx) (seo : Seo) : Seo :=
  objSet SEO_CATEGORIES.LINKS (Section.linksS (linksSection ctx)) seo

/-- Lines 267-300. -/
def extractHeadings (ctx : Ctx) (seo : Seo) : Seo :=
  objSet SEO_CATEGORIES.HEADINGS (Section.headingsS (headingsSection ctx.doc)) seo

/-- Lines 302-349. -/
def extractImages (ctx : Ctx) (seo : Seo) : Seo :=
  objSet SEO_CATEGORIES.IMAGES (Section.imagesS (imagesSection ctx.doc)) seo

/-- Lines 351-365. -/
def extractPerformanceMetrics (ctx : Ctx) (seo : Seo) : Seo :=
  objSet SEO_CATEGORIES.PERFORMANCE (Section.perfS (performanceSection ctx.doc)) seo

/-- The ordered pipeline of lines 398-408, as state transformers on the
`seo` object. -/
def pipelineSteps (ctx : Ctx) : List (Seo → Seo) :=
  [ extractBasicMetadata ctx
  , extractOpenGraphMetadata ctx
  , extractTwitterMetadata ctx
  , extractSchemaMetadata ctx
  , extractTechnicalMetadata ctx
  , extractLinks ctx
  , extractHeadings ctx
  , extractImages ctx
  , extractPerformanceMetrics ctx ]

/-- The same pipeline as (category key, section payload) pairs: step `i`
of `pipelineSteps` is exactly `objSet` of pair `i`. -/
def pipelinePairs (ctx : Ctx) : List (String × Section) :=
  [ (SEO_CATEGORIES.BASIC, Section.basicS (basicSection ctx.doc))
  , (SEO_CATEGORIES.OPEN_GRAPH, Section.ogS (openGraphSection ctx.doc))
  , (SEO_CATEGORIES.TWITTER, Section.twitterS (twitterSection ctx.doc))
  , (SEO_CATEGORIES.SCHEMA, Section.schemaS (schemaSection ctx))
  , (SEO_CATEGORIES.TECHNICAL, Section.technicalS (technicalSection ctx.doc))
  , (SEO_CATEGORIES.LINKS, Section.linksS (linksSection ctx))
  , (SEO_CATEGORIES.HEADINGS, Section.headingsS (headingsSection ctx.doc))
  , (SEO_CATEGORIES.IMAGES, Section.imagesS (imagesSection ctx.doc))
  , (SEO_CATEGORIES.PERFORMANCE, Section.perfS (performanceSection ctx.doc)) ]

/-- Lines 395-421: run the nine steps in order, each wrapped in
`try`/`catch`.  A throw can only happen before the step writes its
section (the write is each method's final statement), so a failing step
leaves the `seo` object unchanged; `fails i = true` says step `i` throws.
The run always returns the report. -/
def analyze (ctx : Ctx) (fails : Nat → Bool) : Report :=
  { url := ctx.url
  , seo :=
      ((pipelineSteps ctx).enum).foldl
        (fun seo q => if fails q.1 then seo else q.2 seo) [] }

/-! ## Concrete fixtures used by witnesses and counterexamples -/

/-- The empty parsed document. -/
def emptyDoc : Doc :=
  { html := "", titleText := "", htmlLang := none, metas := [], linkTags := []
  , scripts := [], anchors := [], imgs := [], headings := [], styleCount := 0
  , itemscopes := [] }

/-- A URL-hostname collaborator that always throws. -/
def noHost : String → Option String := fun _ => none

/-- A JSON parser collaborator that always throws. -/
def noParse : String → Option JsonVal := fun _ => none

/-- A context over the empty document. -/
def ctx0 : Ctx := { doc := emptyDoc, url := "http://example.com", host := noHost, parse := noParse }

/-- A document with one stylesheet, one external script, one `img` with a
`src` and one `img` without any `src`. -/
def docC1 : Doc :=
  { emptyDoc with
    linkTags := [{ rel := some "stylesheet", href := none, hreflang := none
                 , typeAttr := none, media := none }]
  , scripts := [{ src := some "app.js", typeAttr := none, content := "" }]
  , imgs := [ { src := some "a.png", alt := none, loading := none, srcset := none, title := none }
            , { src := none, alt := some "decorative", loading := none, srcset := none
              , title := none } ] }

/-- A document whose Open Graph metas give the flat `og:image` before the
nested `og:image:width`. -/
def docC2 : Doc :=
  { emptyDoc with
    metas := [ { property := some "og:image", name := none, content := some "I"
               , charset := none, httpEquiv := none }
             , { property := some "og:image:width", name := none, content := some "300"
               , charset := none, httpEquiv := none } ] }

/-! ## General lemmas -/

/-- Folding `+ c` over a list adds `c` once per element. -/
lemma foldl_add_const {α : Type} (c : Nat) (l : List α) :
    ∀ init : Nat, l.foldl (fun acc _ => acc + c) init = init + c * l.length := by
  induction l with
  | nil => intro init; simp
  | cons x xs ih => intro init; simp [List.foldl_cons, ih, List.length_cons]; ring

/-- The anchor loop never touches the `broken` bucket. -/
lemma processAnchor_broken (ctx : Ctx) (st : LinksSection) (a : Anchor) :
    (processAnchor ctx st a).broken = st.broken := by
  unfold processAnchor
  rcases a with ⟨href, rel, text, title⟩
  rcases href with _ | href
  · rfl
  · dsimp only
    repeat' split
    all_goals rfl

/-- Collection never touches the `broken` bucket. -/
lemma collectLinks_broken (ctx : Ctx) : (collectLinks ctx).broken = [] := by
  unfold collectLinks
  generalize (ctx.doc.anchors.filter (fun a => a.href.isSome)) = l
  suffices h : ∀ (l : List Anchor) (st : LinksSection),
      (l.foldl (processAnchor ctx) st).broken = st.broken by
    exact h l _
  intro l
  induction l with
  | nil => intro st; rfl
  | cons a as ih => intro st; rw [List.foldl_cons, ih, processAnchor_broken]

/-! ## Claim C1 — the page-weight estimate -/

/-- C1, counterexample.  The claim computes
`(#stylesheets × 15000) + (#external scripts × 50000) × (#images × 100000)`
with `#images` the number of `img` elements.  On a document with one
stylesheet, one external script, one `img[src]` and one src-less `img`,
that formula gives `15000 + 50000 × 200000`, but `estimatePageWeight`
produces `165000`: the source adds the three per-resource costs and only
counts `img[src]` elements. -/
theorem estimatePageWeight_claim_counterexample :
    (estimatePageWeight docC1).estimatedExternalResources = 165000
  ∧ (stylesheetLinks docC1).length = 1
  ∧ (externalScripts docC1).length = 1
  ∧ docC1.imgs.length = 2
  ∧ (estimatePageWeight docC1).estimatedExternalResources
      ≠ 1 * 15000 + (1 * 50000) * (2 * 100000) := by
  refine ⟨rfl, rfl, rfl, rfl, ?_⟩
  decide

/-- C1, amended.  For every document the page-weight estimate satisfies
`estimatedExternalResources = 15000 × #stylesheets + 50000 × #external
scripts + 100000 × #img[src] elements` (a plain sum — no multiplication
between resource classes, and images are counted only when they carry a
`src` attribute), and `totalEstimated` is the UTF-8 byte size of the
markup plus that sum. -/
theorem estimatePageWeight_additive (doc : Doc) :
    estimatePageWeight doc =
      { html := doc.html.utf8ByteSize
      , estimatedExternalResources :=
          15000 * (stylesheetLinks doc).length + 50000 * (externalScripts doc).length
            + 100000 * (srcImages doc).length
      , totalEstimated := doc.html.utf8ByteSize
          + (15000 * (stylesheetLinks doc).length + 50000 * (externalScripts doc).length
            + 100000 * (srcImages doc).length) } := by
  unfold estimatePageWeight
  simp only [foldl_add_const, PageWeight.mk.injEq]
  refine ⟨?_, ?_, ?_⟩ <;> first | trivial | ring

/-! ## Claim C2 — Open Graph flat/nested collision -/

/-- C2, counterexample.  With `og:image` (content `I`) before
`og:image:width` (content `300`), the claim says the later nested write
overwrites the flat value, leaving a nested mapping at `image`.  In the
source, `ogTags[parent]` is the truthy string `I`, so the guarded
`ogTags[parent] = {}` does not run and `ogTags[parent][child] = content`
is a silent no-op on a string primitive: the flat string survives. -/
theorem openGraph_flat_then_nested_counterexample :
    objGet "image" (openGraphSection docC2) = some (OGVal.str "I")
  ∧ objGet "image" (openGraphSection docC2) ≠ some (OGVal.map [("width", "300")]) := by
  refine ⟨rfl, ?_⟩
  decide

/-- C2, amended.  When a nested tag `og:x:child` is processed while the
tags object already holds a non-empty flat string at `x`, the write is a
no-op: the earlier flat value survives and the nested value is dropped
(first-write-wins at the parent key, not last-write-wins). -/
theorem ogStep_nested_after_flat_noop (tags : List (String × OGVal)) (m : MetaTag)
    (p c x child v : String) (rest : List String)
    (hp : m.property = some p) (hc : m.content = some c)
    (hne : replaceFirst p "og:" "" ≠ "") (hcne : c ≠ "")
    (hcol : containsChar (replaceFirst p "og:" "") ':' = true)
    (hsplit : splitColon (replaceFirst p "og:" "") = x :: child :: rest)
    (hget : objGet x tags = some (OGVal.str v)) (hv : v ≠ "") :
    ogStep tags m = tags := by
  rcases m with ⟨mp, mn, mc, mch, mhe⟩
  simp only at hp hc
  subst hp; subst hc
  simp [ogStep, hne, hcne, hcol, hsplit, hget, hv]

/-- C2, witness for the amended theorem at the fixture tags. -/
theorem ogStep_nested_after_flat_noop_witness :
    ogStep [("image", OGVal.str "I")]
      { property := some "og:image:width", name := none, content := some "300"
      , charset := none, httpEquiv := none }
      = [("image", OGVal.str "I")] :=
  ogStep_nested_after_flat_noop [("image", OGVal.str "I")] _ "og:image:width" "300"
    "image" "width" "I" [] rfl rfl (by decide) (by decide) (by decide) (by decide)
    rfl (by decide)

/-! ## Claim C7 — doctype classification precedence -/

/-- C7.  The doctype classifier checks `HTML 4` first, then `XHTML`, then
`HTML5` or exact equality with the minimal HTML5 doctype, else `Unknown`;
first match wins, so a doctype containing both `HTML 4` and `HTML5`
classifies as `HTML4`. -/
theorem classifyDoctype_precedence (d : String) :
    (strContains d "HTML 4" = true → classifyDoctype d = "HTML4")
  ∧ (strContains d "HTML 4" = false → strContains d "XHTML" = true →
      classifyDoctype d = "XHTML")
  ∧ (strContains d "HTML 4" = false → strContains d "XHTML" = false →
      (strContains d "HTML5" = true ∨ d = "<!DOCTYPE html>") → classifyDoctype d = "HTML5")
  ∧ (strContains d "HTML 4" = false → strContains d "XHTML" = false →
      strContains d "HTML5" = false → d ≠ "<!DOCTYPE html>" →
      classifyDoctype d = "Unknown") := by
  refine ⟨?_, ?_, ?_, ?_⟩
  · intro h1; simp [classifyDoctype, h1]
  · intro h1 h2; simp [classifyDoctype, h1, h2]
  · intro h1 h2 h3
    rcases h3 with h3 | h3
    · simp [classifyDoctype, h1, h2, h3]
    · subst h3; decide
  · intro h1 h2 h3 h4
    have h5 : (d == "<!DOCTYPE html>") = false := beq_eq_false_iff_ne.mpr h4
    simp [classifyDoctype, h1, h2, h3, h5]

/-- C7, witness: a doctype containing both `HTML 4.01` and `HTML5`
classifies as `HTML4`, and the exact minimal doctype as `HTML5`. -/
theorem classifyDoctype_precedence_witness :
    classifyDoctype "<!DOCTYPE HTML 4.01 HTML5>" = "HTML4"
  ∧ classifyDoctype "<!DOCTYPE html>" = "HTML5" :=
  ⟨(classifyDoctype_precedence "<!DOCTYPE HTML 4.01 HTML5>").1 (by decide)
  , (classifyDoctype_precedence "<!DOCTYPE html>").2.2.1 (by decide) (by decide)
      (Or.inr rfl)⟩

/-! ## Claim C10 — the `broken` bucket -/

/-- C10.  For every context, the links section carries the fourth bucket
`broken` and it is always the empty list: no code path appends to it and
it bypasses deduplication. -/
theorem links_broken_always_empty (ctx : Ctx) : (linksSection ctx).broken = [] := by
  unfold linksSection
  simp only
  exact collectLinks_broken ctx

/-! ## Claim C8 — image buckets and counts -/

/-- One image-loop iteration preserves the bucket/count invariants. -/
lemma imgStep_invariant (st : ImagesSection) (e : Img)
    (h1 : st.counts.total = st.withAlt.length + st.withoutAlt.length)
    (h2 : st.counts.withAlt = st.withAlt.length)
    (h3 : st.counts.withoutAlt = st.withoutAlt.length)
    (h4 : st.counts.lazyLoaded = st.lazyLoaded.length)
    (h5 : st.withAlt.all (fun r => r.hasAlt) = true)
    (h6 : st.withoutAlt.all (fun r => !r.hasAlt) = true) :
    (imgStep st e).counts.total = (imgStep st e).withAlt.length + (imgStep st e).withoutAlt.length
  ∧ (imgStep st e).counts.withAlt = (imgStep st e).withAlt.length
  ∧ (imgStep st e).counts.withoutAlt = (imgStep st e).withoutAlt.length
  ∧ (imgStep st e).counts.lazyLoaded = (imgStep st e).lazyLoaded.length
  ∧ (imgStep st e).withAlt.all (fun r => r.hasAlt) = true
  ∧ (imgStep st e).withoutAlt.all (fun r => !r.hasAlt) = true := by
  unfold imgStep
  dsimp only
  split_ifs with hsrc halt hlazy hlazy <;>
    simp_all [List.all_append, List.length_append] <;> omega

/-- The invariants hold after folding the image loop from any state that
satisfies them. -/
lemma imagesFold_invariant (l : List Img) :
    ∀ (st : ImagesSection),
      st.counts.total = st.withAlt.length + st.withoutAlt.length →
      st.counts.withAlt = st.withAlt.length →
      st.counts.withoutAlt = st.withoutAlt.length →
      st.counts.lazyLoaded = st.lazyLoaded.length →
      st.withAlt.all (fun r => r.hasAlt) = true →
      st.withoutAlt.all (fun r => !r.hasAlt) = true →
      (l.foldl imgStep st).counts.total
          = (l.foldl imgStep st).withAlt.length + (l.foldl imgStep st).withoutAlt.length
    ∧ (l.foldl imgStep st).counts.withAlt = (l.foldl imgStep st).withAlt.length
    ∧ (l.foldl imgStep st).counts.withoutAlt = (l.foldl imgStep st).withoutAlt.length
    ∧ (l.foldl imgStep st).counts.lazyLoaded = (l.foldl imgStep st).lazyLoaded.length
    ∧ (l.foldl imgStep st).withAlt.all (fun r => r.hasAlt) = true
    ∧ (l.foldl imgStep st).withoutAlt.all (fun r => !r.hasAlt) = true := by
  induction l with
  | nil => intro st h1 h2 h3 h4 h5 h6; exact ⟨h1, h2, h3, h4, h5, h6⟩
  | cons e es ih =>
    intro st h1 h2 h3 h4 h5 h6
    rw [List.foldl_cons]
    obtain ⟨g1, g2, g3, g4, g5, g6⟩ := imgStep_invariant st e h1 h2 h3 h4 h5 h6
    exact ih (imgStep st e) g1 g2 g3 g4 g5 g6

/-- An image with a falsy `src` is skipped by the loop. -/
lemma imgStep_skip (st : ImagesSection) (e : Img) (h : e.src.getD "" = "") :
    imgStep st e = st := by
  unfold imgStep
  simp [h]

/-- Folding the image loop ignores images with falsy `src`. -/
lemma imagesFold_filter (l : List Img) :
    ∀ (st : ImagesSection),
      l.foldl imgStep st = (l.filter (fun i => i.src.getD "" != "")).foldl imgStep st := by
  induction l with
  | nil => intro st; rfl
  | cons e es ih =>
    intro st
    rw [List.foldl_cons, List.filter_cons]
    by_cases hk : (e.src.getD "" != "") = true
    · rw [if_pos hk, List.foldl_cons, ih]
    · have he : e.src.getD "" = "" := by
        simpa [bne_iff_ne] using hk
      rw [if_neg hk, imgStep_skip st e he, ih]

/-- C8.  After the images extractor: every count equals the size of its
bucket (with `total` the sum of the two alt buckets); the `withAlt` and
`withoutAlt` buckets are mutually exclusive and exhaustive over the
recorded images (every record in `withAlt` has `hasAlt`, every record in
`withoutAlt` does not, and `total` counts exactly their union); the
extraction only sees images with a truthy `src`, and in particular an
`img` with no `src` attribute contributes to no bucket and no count. -/
theorem imagesSection_invariants (doc : Doc) :
    ((imagesSection doc).counts.total
        = (imagesSection doc).withAlt.length + (imagesSection doc).withoutAlt.length
      ∧ (imagesSection doc).counts.withAlt = (imagesSection doc).withAlt.length
      ∧ (imagesSection doc).counts.withoutAlt = (imagesSection doc).withoutAlt.length
      ∧ (imagesSection doc).counts.lazyLoaded = (imagesSection doc).lazyLoaded.length)
  ∧ ((imagesSection doc).withAlt.all (fun r => r.hasAlt) = true
      ∧ (imagesSection doc).withoutAlt.all (fun r => !r.hasAlt) = true)
  ∧ imagesSection doc
      = imagesSection { doc with imgs := doc.imgs.filter (fun i => i.src.getD "" != "") }
  ∧ (∀ (st : ImagesSection) (e : Img), e.src = none → imgStep st e = st) := by
  obtain ⟨g1, g2, g3, g4, g5, g6⟩ :=
    imagesFold_invariant doc.imgs
      { withAlt := [], withoutAlt := [], lazyLoaded := [], counts := ⟨0, 0, 0, 0⟩ }
      rfl rfl rfl rfl rfl rfl
  refine ⟨⟨g1, g2, g3, g4⟩, ⟨g5, g6⟩, ?_, ?_⟩
  · unfold imagesSection
    exact imagesFold_filter doc.imgs _
  · intro st e he
    exact imgStep_skip st e (by rw [he]; rfl)

/-- C8, witness: the invariants and the skip rule at the fixture
document. -/
theorem imagesSection_invariants_witness :
    imgStep (imagesSection docC1)
      { src := none, alt := none, loading := none, srcset := none, title := none }
      = imagesSection docC1
  ∧ (imagesSection docC1).counts.total
      = (imagesSection docC1).withAlt.length + (imagesSection docC1).withoutAlt.length :=
  ⟨(imagesSection_invariants docC1).2.2.2 _ _ rfl, (imagesSection_invariants docC1).1.1⟩

/-! ## Claim C9 — JSON-LD parsing is order-preserving and failure-silent -/

/-- The JSON-LD loop is an order-preserving filterMap: parsed values are
pushed in order, falsy or unparsable blocks contribute nothing. -/
lemma foldl_parse_push (parse : String → Option JsonVal) (l : List String) :
    ∀ acc : List JsonVal,
      l.foldl (fun acc c =>
        if c != "" then
          match parse c with
          | some v => acc ++ [v]
          | none => acc
        else acc) acc
      = acc ++ l.filterMap (fun c => if c != "" then parse c else none) := by
  induction l with
  | nil => intro acc; simp
  | cons c cs ih =>
    intro acc
    simp only [List.foldl_cons, List.filterMap_cons]
    by_cases hc : (c != "") = true
    · rw [if_pos hc, if_pos hc]
      cases hp : parse c with
      | some v =>
        dsimp only
        rw [ih (acc ++ [v]), List.append_assoc]
        rfl
      | none =>
        dsimp only
        exact ih acc
    · rw [if_neg hc, if_neg hc]
      dsimp only
      exact ih acc

/-- Reading another key through an in-place overwrite is unchanged. -/
lemma objGet_map_overwrite {α : Type} (k k' : String) (v : α) (m : List (String × α))
    (h : k ≠ k') :
    objGet k (m.map (fun p => if p.1 == k' then (k', v) else p)) = objGet k m := by
  have hk : (k' == k) = false := beq_eq_false_iff_ne.mpr (Ne.symm h)
  induction m with
  | nil => rfl
  | cons p ps ih =>
    rw [List.map_cons]
    set T := ps.map (fun p => if p.1 == k' then (k', v) else p) with hT
    by_cases hp : (p.1 == k') = true
    · have hpk : p.1 = k' := eq_of_beq hp
      have hk2 : (p.1 == k) = false := by rw [hpk]; exact hk
      rw [if_pos hp]
      show objGet k ((k', v) :: T) = objGet k (p :: ps)
      simp only [objGet]
      rw [ih]
      simp [hk, hk2]
    · rw [if_neg hp]
      show objGet k (p :: T) = objGet k (p :: ps)
      simp only [objGet]
      rw [ih]

/-- Reading another key through an append is unchanged. -/
lemma objGet_append_ne {α : Type} (k k' : String) (v : α) (m : List (String × α))
    (h : k ≠ k') :
    objGet k (m ++ [(k', v)]) = objGet k m := by
  have hk : (k' == k) = false := beq_eq_false_iff_ne.mpr (Ne.symm h)
  induction m with
  | nil => simp [objGet, hk]
  | cons p ps ih =>
    by_cases hq : (p.1 == k) = true
    · simp [objGet, hq]
    · simp [objGet, hq, ih]

/-- `obj[k2] = v` leaves `obj[k1]` unchanged for `k1 ≠ k2`. -/
lemma objGet_objSet_ne {α : Type} (k k' : String) (v : α) (m : List (String × α))
    (h : k ≠ k') :
    objGet k (objSet k' v m) = objGet k m := by
  unfold objSet
  by_cases hm : (m.any (fun p => p.1 == k')) = true
  · rw [if_pos hm]; exact objGet_map_overwrite k k' v m h
  · rw [if_neg hm]; exact objGet_append_ne k k' v m h

/-- C9.  The schema extractor parses each `application/ld+json` block and
appends the parsed values to `jsonLd` in document order; a block whose
content fails to parse (or is falsy) is silently dropped, so a document
whose only such block is malformed yields an empty `jsonLd`; and the
schema step touches no other key of the report, leaving every other
section unaffected. -/
theorem jsonld_silent_drop (ctx : Ctx) :
    (schemaSection ctx).jsonLd
        = (ldScriptContents ctx.doc).filterMap
            (fun c => if c != "" then ctx.parse c else none)
  ∧ (∀ c, ldScriptContents ctx.doc = [c] → ctx.parse c = none →
      (schemaSection ctx).jsonLd = [])
  ∧ (∀ (seo : Seo) (k : String), k ≠ SEO_CATEGORIES.SCHEMA →
      objGet k (extractSchemaMetadata ctx seo) = objGet k seo) := by
  have hfold : (schemaSection ctx).jsonLd
      = (ldScriptContents ctx.doc).filterMap
          (fun c => if c != "" then ctx.parse c else none) := by
    unfold schemaSection
    simp only
    rw [foldl_parse_push]
    simp
  refine ⟨hfold, ?_, ?_⟩
  · intro c hld hp
    rw [hfold, hld]
    by_cases hc : (c != "") = true
    · simp only [List.filterMap_cons, if_pos hc, hp]
      rfl
    · have hc2 : (c != "") = false := by
        cases hb : (c != "") with
        | true => exact absurd hb hc
        | false => rfl
      simp only [List.filterMap_cons, hc2]
      rfl
  · intro seo k hk
    unfold extractSchemaMetadata
    exact objGet_objSet_ne k SEO_CATEGORIES.SCHEMA _ seo hk

/-- A document whose only JSON-LD block is the malformed `not json`. -/
def docC9 : Doc :=
  { emptyDoc with
    scripts := [{ src := none, typeAttr := some "application/ld+json", content := "not json" }] }

/-- A context over `docC9` whose JSON parser rejects everything, as
`JSON.parse` does on that block. -/
def ctx9 : Ctx := { doc := docC9, url := "http://example.com", host := noHost, parse := noParse }

/-- C9, witness: the malformed-only document yields an empty `jsonLd`,
and the schema step leaves the `basic` key of an empty report
unchanged. -/
theorem jsonld_silent_drop_witness :
    (schemaSection ctx9).jsonLd = []
  ∧ objGet SEO_CATEGORIES.BASIC (extractSchemaMetadata ctx9 [])
      = objGet SEO_CATEGORIES.BASIC ([] : Seo) :=
  ⟨(jsonld_silent_drop ctx9).2.1 "not json" rfl rfl
  , (jsonld_silent_drop ctx9).2.2 [] SEO_CATEGORIES.BASIC (by decide)⟩

/-! ## Claim C5 — link classification -/

/-- A hostname collaborator for `a.com` fixtures: parses exactly the
`https://a.com...` URLs. -/
def hostA : String → Option String := fun s =>
  if strStarts s "https://a.com" then some "a.com" else none

/-- A document whose only anchor has an empty `href` (and a nofollow
`rel`). -/
def docC5 : Doc :=
  { emptyDoc with
    anchors := [{ href := some "", rel := some "nofollow", text := "x", title := none }] }

/-- A context over `docC5`. -/
def ctxC5 : Ctx := { doc := docC5, url := "https://a.com", host := hostA, parse := noParse }

/-- C5, counterexample.  The claim's case split sends every href that does
not start with `#`, `javascript:` or an absolute scheme to the internal
bucket, and sends every nofollow link to the nofollow bucket; an anchor
with an empty `href` is such a case (and carries `rel="nofollow"`), yet
the source skips it entirely via `if (!href) return` before any
classification or nofollow tracking. -/
theorem links_empty_href_counterexample :
    (linksSection ctxC5).internal = []
  ∧ (linksSection ctxC5).external = []
  ∧ (linksSection ctxC5).nofollow = []
  ∧ (docC5.anchors.filter (fun a => a.href.isSome)).length = 1 :=
  ⟨rfl, rfl, rfl, rfl⟩

/-- C5, amended.  For every anchor with an href: it is skipped entirely
when the href is empty or starts with `#` or `javascript:`; when it
starts with `http` and both it and the origin URL parse to hostnames,
equal hostnames put it in `internal` and different ones in `external`;
when it starts with `http` but either URL fails to parse it goes to
`external`; every other href goes to `internal`; and, independently of
classification, every non-skipped link whose `rel` case-insensitively
contains `nofollow` is also appended to the `nofollow` bucket. -/
theorem processAnchor_classification (ctx : Ctx) (st : LinksSection) (a : Anchor)
    (h : String) (ha : a.href = some h) :
    (h = "" → processAnchor ctx st a = st)
  ∧ ((strStarts h "#" = true ∨ strStarts h "javascript:" = true) → h ≠ "" →
      processAnchor ctx st a = st)
  ∧ (∀ u b, h ≠ "" → strStarts h "#" = false → strStarts h "javascript:" = false →
      strStarts h "http" = true → ctx.host h = some u → ctx.host ctx.url = some b → u = b →
      processAnchor ctx st a =
        (if (mkLink a h).isNofollow then
          { st with internal := st.internal ++ [mkLink a h]
                  , nofollow := st.nofollow ++ [mkLink a h] }
         else { st with internal := st.internal ++ [mkLink a h] }))
  ∧ (∀ u b, h ≠ "" → strStarts h "#" = false → strStarts h "javascript:" = false →
      strStarts h "http" = true → ctx.host h = some u → ctx.host ctx.url = some b → u ≠ b →
      processAnchor ctx st a =
        (if (mkLink a h).isNofollow then
          { st with external := st.external ++ [mkLink a h]
                  , nofollow := st.nofollow ++ [mkLink a h] }
         else { st with external := st.external ++ [mkLink a h] }))
  ∧ (h ≠ "" → strStarts h "#" = false → strStarts h "javascript:" = false →
      strStarts h "http" = true → (ctx.host h = none ∨ ctx.host ctx.url = none) →
      processAnchor ctx st a =
        (if (mkLink a h).isNofollow then
          { st with external := st.external ++ [mkLink a h]
                  , nofollow := st.nofollow ++ [mkLink a h] }
         else { st with external := st.external ++ [mkLink a h] }))
  ∧ (h ≠ "" → strStarts h "#" = false → strStarts h "javascript:" = false →
      strStarts h "http" = false →
      processAnchor ctx st a =
        (if (mkLink a h).isNofollow then
          { st with internal := st.internal ++ [mkLink a h]
                  , nofollow := st.nofollow ++ [mkLink a h] }
         else { st with internal := st.internal ++ [mkLink a h] })) := by
  rcases a with ⟨href, rel, text, title⟩
  simp only at ha
  subst ha
  refine ⟨?_, ?_, ?_, ?_, ?_, ?_⟩
  · intro he
    subst he
    simp [processAnchor]
  · intro hskip hne
    have hb : (h == "") = false := beq_eq_false_iff_ne.mpr hne
    rcases hskip with hs | hs <;> simp [processAnchor, hb, hs]
  · intro u b hne h1 h2 h3 hh1 hh2 hub
    subst hub
    have hb : (h == "") = false := beq_eq_false_iff_ne.mpr hne
    by_cases hnf : (mkLink ⟨some h, rel, text, title⟩ h).isNofollow = true <;>
      simp [processAnchor, hb, h1, h2, h3, hh1, hh2, hnf]
  · intro u b hne h1 h2 h3 hh1 hh2 hub
    have hb : (h == "") = false := beq_eq_false_iff_ne.mpr hne
    have hub2 : (u == b) = false := beq_eq_false_iff_ne.mpr hub
    by_cases hnf : (mkLink ⟨some h, rel, text, title⟩ h).isNofollow = true <;>
      simp [processAnchor, hb, h1, h2, h3, hh1, hh2, hub2, hnf]
  · intro hne h1 h2 h3 hh
    have hb : (h == "") = false := beq_eq_false_iff_ne.mpr hne
    rcases hh with hh | hh
    · rcases hy : ctx.host ctx.url with _ | b <;>
        by_cases hnf : (mkLink ⟨some h, rel, text, title⟩ h).isNofollow = true <;>
        simp [processAnchor, hb, h1, h2, h3, hh, hy, hnf]
    · rcases hx : ctx.host h with _ | u <;>
        by_cases hnf : (mkLink ⟨some h, rel, text, title⟩ h).isNofollow = true <;>
        simp [processAnchor, hb, h1, h2, h3, hx, hh, hnf]
  · intro hne h1 h2 h3
    have hb : (h == "") = false := beq_eq_false_iff_ne.mpr hne
    by_cases hnf : (mkLink ⟨some h, rel, text, title⟩ h).isNofollow = true <;>
      simp [processAnchor, hb, h1, h2, h3, hnf]

/-- An anchor used by the classification witness: same hostname as the
origin page, mixed-case nofollow `rel`. -/
def anchorW : Anchor :=
  { href := some "https://a.com/x", rel := some "NoFollow", text := " hi ", title := none }

/-- A context for the classification witness. -/
def ctxW5 : Ctx := { doc := emptyDoc, url := "https://a.com", host := hostA, parse := noParse }

/-- C5, witness: a same-hostname nofollow anchor lands in both the
internal and nofollow buckets. -/
theorem processAnchor_classification_witness :
    processAnchor ctxW5 { internal := [], external := [], nofollow := [], broken := [] } anchorW
      = { internal := [mkLink anchorW "https://a.com/x"], external := []
        , nofollow := [mkLink anchorW "https://a.com/x"], broken := [] } := by
  have h := (processAnchor_classification ctxW5
      { internal := [], external := [], nofollow := [], broken := [] } anchorW
      "https://a.com/x" rfl).2.2.1 "a.com" "a.com" (by decide) (by decide) (by decide)
      (by decide) rfl rfl rfl
  rw [h]
  rfl

/-! ## Claim C6 — per-bucket deduplication, first record wins -/

/-- Inserting into the modelled `Set` preserves distinctness. -/
lemma setFromAux_nodup (l : List String) :
    ∀ acc : List String, acc.Nodup →
      (l.foldl (fun acc u => if acc.contains u then acc else acc ++ [u]) acc).Nodup := by
  induction l with
  | nil => intro acc hn; exact hn
  | cons u us ih =>
    intro acc hn
    rw [List.foldl_cons]
    by_cases hc : (acc.contains u) = true
    · rw [if_pos hc]; exact ih acc hn
    · rw [if_neg hc]
      refine ih _ ?_
      rw [List.nodup_append]
      refine ⟨hn, List.nodup_singleton u, ?_⟩
      intro x hx hx2
      rw [List.mem_singleton] at hx2
      subst hx2
      exact hc (by simpa using hx)

/-- The distinct-url list is duplicate-free. -/
lemma setFrom_nodup (l : List String) : (setFrom l).Nodup :=
  setFromAux_nodup l [] List.nodup_nil

/-- A record found by url carries that url. -/
lemma find?_url (arr : List LinkRec) (u : String) (r : LinkRec)
    (hf : arr.find? (fun l => l.url == u) = some r) : r.url = u := by
  have hp := List.find?_some hf
  exact eq_of_beq hp

/-- No record for `u` arises from urls other than `u`. -/
lemma dedup_count_zero (arr : List LinkRec) (u : String) :
    ∀ us : List String, u ∉ us →
      ((us.filterMap (fun v => arr.find? (fun x => x.url == v))).filter
        (fun r => r.url == u)).length = 0 := by
  intro us
  induction us with
  | nil => intro _; rfl
  | cons v vs ih =>
    intro hu
    have hv : v ≠ u := fun he => hu (he ▸ List.mem_cons_self v vs)
    have hvs : u ∉ vs := fun hm => hu (List.mem_cons_of_mem v hm)
    rw [List.filterMap_cons]
    cases hf : arr.find? (fun x => x.url == v) with
    | none => exact ih hvs
    | some r =>
      have hr : (r.url == u) = false := by
        rw [find?_url arr v r hf]; exact beq_eq_false_iff_ne.mpr hv
      rw [List.filter_cons, hr]
      simpa using ih hvs

/-- Over a duplicate-free url list, at most one record per url
survives. -/
lemma dedup_count_le_one (arr : List LinkRec) (u : String) :
    ∀ us : List String, us.Nodup →
      ((us.filterMap (fun v => arr.find? (fun x => x.url == v))).filter
        (fun r => r.url == u)).length ≤ 1 := by
  intro us
  induction us with
  | nil => intro _; simp
  | cons v vs ih =>
    intro hnd
    have hv : v ∉ vs := (List.nodup_cons.mp hnd).1
    have hvs : vs.Nodup := (List.nodup_cons.mp hnd).2
    rw [List.filterMap_cons]
    cases hf : arr.find? (fun x => x.url == v) with
    | none => exact ih hvs
    | some r =>
      have hr : r.url = v := find?_url arr v r hf
      by_cases hvu : v = u
      · subst hvu
        have hru : (r.url == v) = true := by rw [hr]; exact beq_self_eq_true v
        rw [List.filter_cons, hru]
        have h0 := dedup_count_zero arr v vs hv
        simp [h0]
      · have hru : (r.url == u) = false := by
          rw [hr]; exact beq_eq_false_iff_ne.mpr hvu
        rw [List.filter_cons, hru]
        simpa using ih hvs

/-- At most one record per distinct url survives deduplication. -/
lemma uniqueLinks_count_le_one (arr : List LinkRec) (u : String) :
    ((uniqueLinks arr).filter (fun l => l.url == u)).length ≤ 1 := by
  unfold uniqueLinks
  exact dedup_count_le_one arr u _ (setFrom_nodup _)

/-- Every surviving record is the first record bearing its url. -/
lemma uniqueLinks_first (arr : List LinkRec) (l : LinkRec) (h : l ∈ uniqueLinks arr) :
    arr.find? (fun x => x.url == l.url) = some l := by
  unfold uniqueLinks at h
  obtain ⟨v, _, hf⟩ := List.mem_filterMap.mp h
  rw [find?_url arr v l hf]
  exact hf

/-- C6.  After `extractLinks`, each of the `internal`, `external` and
`nofollow` buckets holds at most one record per distinct url string
(exact match), and each surviving record equals the first record with
that url collected in document order. -/
theorem links_dedup_first_wins (ctx : Ctx) (u : String) :
    (((linksSection ctx).internal.filter (fun l => l.url == u)).length ≤ 1
      ∧ ((linksSection ctx).external.filter (fun l => l.url == u)).length ≤ 1
      ∧ ((linksSection ctx).nofollow.filter (fun l => l.url == u)).length ≤ 1)
  ∧ ((∀ l ∈ (linksSection ctx).internal,
        (collectLinks ctx).internal.find? (fun x => x.url == l.url) = some l)
      ∧ (∀ l ∈ (linksSection ctx).external,
        (collectLinks ctx).external.find? (fun x => x.url == l.url) = some l)
      ∧ (∀ l ∈ (linksSection ctx).nofollow,
        (collectLinks ctx).nofollow.find? (fun x => x.url == l.url) = some l)) := by
  unfold linksSection
  dsimp only
  exact ⟨⟨uniqueLinks_count_le_one _ u, uniqueLinks_count_le_one _ u
        , uniqueLinks_count_le_one _ u⟩
      , ⟨fun l hl => uniqueLinks_first _ l hl, fun l hl => uniqueLinks_first _ l hl
        , fun l hl => uniqueLinks_first _ l hl⟩⟩

/-- Two anchors to the same url with different texts. -/
def docC6 : Doc :=
  { emptyDoc with
    anchors :=
      [ { href := some "https://a.com/x", rel := none, text := "first", title := none }
      , { href := some "https://a.com/x", rel := none, text := "second", title := none } ] }

/-- A context over `docC6`. -/
def ctx6 : Ctx := { doc := docC6, url := "https://a.com", host := hostA, parse := noParse }

/-- C6, witness: the duplicate url keeps a single record, the first one
encountered. -/
theorem links_dedup_first_wins_witness :
    ((linksSection ctx6).internal.filter (fun l => l.url == "https://a.com/x")).length ≤ 1
  ∧ (collectLinks ctx6).internal.find? (fun x => x.url == "https://a.com/x")
      = some { url := "https://a.com/x", text := some "first", rel := none
             , isNofollow := false, isSponsored := false, isUGC := false, title := none } := by
  refine ⟨(links_dedup_first_wins ctx6 "https://a.com/x").1.1, ?_⟩
  have hmem : ({ url := "https://a.com/x", text := some "first", rel := none
               , isNofollow := false, isSponsored := false, isUGC := false
               , title := none } : LinkRec) ∈ (linksSection ctx6).internal := by decide
  exact (links_dedup_first_wins ctx6 "https://a.com/x").2.1 _ hmem

/-! ## Claims C3 and C4 — pipeline isolation and the category invariant -/

/-- A key absent from an object makes `objSet` a plain append. -/
lemma any_key_false {α : Type} (k : String) (m : List (String × α))
    (h : ∀ q ∈ m, q.1 ≠ k) : (m.any (fun p => p.1 == k)) = false := by
  induction m with
  | nil => rfl
  | cons p ps ih =>
    rw [List.any_cons]
    have h1 : (p.1 == k) = false := beq_eq_false_iff_ne.mpr (h p (List.mem_cons_self p ps))
    rw [h1, Bool.false_or]
    exact ih (fun q hq => h q (List.mem_cons_of_mem p hq))

/-- Writing a fresh key appends the pair at the end. -/
lemma objSet_append {α : Type} (k : String) (v : α) (m : List (String × α))
    (h : ∀ q ∈ m, q.1 ≠ k) : objSet k v m = m ++ [(k, v)] := by
  unfold objSet
  rw [any_key_false k m h]
  rfl

/-- Folding over an enumerated mapped list is folding over the original
enumeration with the map applied pointwise. -/
lemma enumFrom_foldl_map {α β σ : Type} (g : α → β) (step : σ → Nat × β → σ)
    (l : List α) :
    ∀ (n : Nat) (init : σ),
      ((l.map g).enumFrom n).foldl step init
        = (l.enumFrom n).foldl (fun s q => step s (q.1, g q.2)) init := by
  induction l with
  | nil => intro n init; rfl
  | cons x xs ih =>
    intro n init
    rw [List.map_cons]
    rw [show ((g x :: xs.map g).enumFrom n) = (n, g x) :: ((xs.map g).enumFrom (n + 1))
        from rfl]
    rw [show ((x :: xs).enumFrom n) = (n, x) :: (xs.enumFrom (n + 1)) from rfl]
    rw [List.foldl_cons, List.foldl_cons]
    exact ih (n + 1) (step init (n, g x))

/-- Folding guarded `objSet` writes of pairwise-distinct fresh keys over
an enumeration appends exactly the non-failing pairs, in order. -/
lemma foldl_objSet_filter (fails : Nat → Bool) (l : List (String × Section)) :
    ∀ (n : Nat) (init : Seo),
      (∀ p ∈ l, ∀ q ∈ init, p.1 ≠ q.1) →
      List.Pairwise (fun a b => a.1 ≠ b.1) l →
      ((l.enumFrom n).foldl
          (fun seo q => if fails q.1 then seo else objSet q.2.1 q.2.2 seo) init)
        = init ++ ((l.enumFrom n).filter (fun q => !fails q.1)).map Prod.snd := by
  induction l with
  | nil => intro n init _ _; simp [List.enumFrom]
  | cons p rest ih =>
    intro n init hdisj hpw
    obtain ⟨k, v⟩ := p
    obtain ⟨hhead, htail⟩ := List.pairwise_cons.mp hpw
    rw [show (((k, v) :: rest).enumFrom n) = (n, (k, v)) :: (rest.enumFrom (n + 1))
        from rfl]
    rw [List.foldl_cons, List.filter_cons]
    dsimp only
    have hdisj2 : ∀ p ∈ rest, ∀ q ∈ init, p.1 ≠ q.1 :=
      fun p hp => hdisj p (List.mem_cons_of_mem _ hp)
    cases hf : fails n with
    | true =>
      rw [if_pos rfl]
      simp only [Bool.not_true]
      rw [if_neg (by simp)]
      exact ih (n + 1) init hdisj2 htail
    | false =>
      rw [if_neg (by simp)]
      have hset : objSet k v init = init ++ [(k, v)] :=
        objSet_append k v init
          (fun q hq => Ne.symm (hdisj (k, v) (List.mem_cons_self _ _) q hq))
      rw [hset]
      simp only [Bool.not_false]
      rw [if_pos trivial, List.map_cons]
      have hd3 : ∀ p ∈ rest, ∀ q ∈ init ++ [(k, v)], p.1 ≠ q.1 := by
        intro p hp q hq
        rcases List.mem_append.mp hq with hq | hq
        · exact hdisj2 p hp q hq
        · rw [List.mem_singleton] at hq
          subst hq
          exact Ne.symm (hhead p hp)
      rw [ih (n + 1) (init ++ [(k, v)]) hd3 htail, List.append_assoc]
      rfl

/-- Each pipeline step is exactly the `objSet` of its pipeline pair. -/
lemma pipelineSteps_eq (ctx : Ctx) :
    pipelineSteps ctx
      = (pipelinePairs ctx).map (fun p => fun seo => objSet p.1 p.2 seo) := rfl

/-- The nine category keys of the pipeline are pairwise distinct. -/
lemma pipelinePairs_keys_pairwise (ctx : Ctx) :
    List.Pairwise (fun a b => a.1 ≠ b.1) (pipelinePairs ctx) := by
  have h : ((pipelinePairs ctx).map Prod.fst).Nodup := by
    show (["basic", "open_graph", "twitter", "schema", "technical", "links"
          , "headings", "images", "performance"] : List String).Nodup
    decide
  exact List.pairwise_map.mp h

/-- The `seo` object produced by `analyze` is exactly the pipeline pairs
of the non-failing steps, in pipeline order. -/
lemma analyze_seo_eq (ctx : Ctx) (fails : Nat → Bool) :
    (analyze ctx fails).seo
      = ((pipelinePairs ctx).enum.filter (fun q => !fails q.1)).map Prod.snd := by
  show ((pipelineSteps ctx).enum.foldl
      (fun seo q => if fails q.1 then seo else q.2 seo) []) = _
  rw [pipelineSteps_eq]
  show (((pipelinePairs ctx).map (fun p => fun seo => objSet p.1 p.2 seo)).enumFrom 0).foldl
      (fun seo q => if fails q.1 then seo else q.2 seo) [] = _
  rw [enumFrom_foldl_map]
  exact foldl_objSet_filter fails (pipelinePairs ctx) 0 []
    (by intro p _ q hq; cases hq) (pipelinePairs_keys_pairwise ctx)

/-- A key appearing in none of the pairs reads back `none` from the
filtered result. -/
lemma objGet_enumFilter_none (fails : Nat → Bool) (k : String)
    (l : List (String × Section)) :
    ∀ n : Nat, (∀ p ∈ l, p.1 ≠ k) →
      objGet k (((l.enumFrom n).filter (fun q => !fails q.1)).map Prod.snd) = none := by
  induction l with
  | nil => intro n _; rfl
  | cons p rest ih =>
    intro n hk
    rw [show ((p :: rest).enumFrom n) = (n, p) :: (rest.enumFrom (n + 1)) from rfl
      , List.filter_cons]
    dsimp only
    have hk2 : ∀ q ∈ rest, q.1 ≠ k := fun q hq => hk q (List.mem_cons_of_mem _ hq)
    cases hf : (!fails n) with
    | false =>
      rw [if_neg (by simp)]
      exact ih (n + 1) hk2
    | true =>
      rw [if_pos rfl, List.map_cons]
      have hb : (p.1 == k) = false :=
        beq_eq_false_iff_ne.mpr (hk p (List.mem_cons_self p rest))
      show objGet k (p :: _) = none
      rw [show objGet k (p :: ((rest.enumFrom (n + 1)).filter
            (fun q => !fails q.1)).map Prod.snd)
          = if p.1 == k then some p.2
            else objGet k (((rest.enumFrom (n + 1)).filter
              (fun q => !fails q.1)).map Prod.snd) from rfl]
      rw [hb, if_neg (by simp)]
      exact ih (n + 1) hk2

/-- Reading the key of pair `i` from the filtered result gives its
payload exactly when step `i` does not fail. -/
lemma objGet_enumFilter_get? (fails : Nat → Bool) (l : List (String × Section)) :
    ∀ (n i : Nat) (k : String) (v : Section),
      List.Pairwise (fun a b => a.1 ≠ b.1) l →
      l.get? i = some (k, v) →
      objGet k (((l.enumFrom n).filter (fun q => !fails q.1)).map Prod.snd)
        = if fails (n + i) then none else some v := by
  induction l with
  | nil => intro n i k v _ hg; cases hg
  | cons p rest ih =>
    intro n i k v hpw hg
    obtain ⟨hhead, htail⟩ := List.pairwise_cons.mp hpw
    rw [show ((p :: rest).enumFrom n) = (n, p) :: (rest.enumFrom (n + 1)) from rfl
      , List.filter_cons]
    dsimp only
    cases i with
    | zero =>
      have hp : p = (k, v) := by
        have : some p = some (k, v) := hg
        injection this
      subst hp
      cases hf : fails n with
      | false =>
        simp only [Bool.not_false]
        rw [if_pos trivial, List.map_cons]
        simp [objGet, hf]
      | true =>
        simp only [Bool.not_true]
        rw [if_neg (by simp)]
        have hnone := objGet_enumFilter_none fails k rest (n + 1)
          (fun q hq => Ne.symm (hhead q hq))
        rw [hnone]
        simp [hf]
    | succ j =>
      have hg2 : rest.get? j = some (k, v) := hg
      have hkp : p.1 ≠ k := hhead (k, v) (List.get?_mem hg2)
      have harith : n + 1 + j = n + (j + 1) := by omega
      have hrec := ih (n + 1) j k v htail hg2
      rw [harith] at hrec
      cases hf : (!fails n) with
      | false =>
        rw [if_neg (by simp)]
        exact hrec
      | true =>
        rw [if_pos rfl, List.map_cons]
        have hb : (p.1 == k) = false := beq_eq_false_iff_ne.mpr hkp
        show objGet k (p :: _) = _
        rw [show objGet k (p :: ((rest.enumFrom (n + 1)).filter
              (fun q => !fails q.1)).map Prod.snd)
            = if p.1 == k then some p.2
              else objGet k (((rest.enumFrom (n + 1)).filter
                (fun q => !fails q.1)).map Prod.snd) from rfl]
        rw [hb, if_neg (by simp)]
        exact hrec

/-- C3, counterexample.  When the first extractor (basic metadata)
throws, its category key `basic` IS omitted from the report — contrary to
the claim that the key is not omitted — while the remaining eight
extractors still run in order and the report is still produced. -/
theorem analyze_failed_category_omitted :
    objGet SEO_CATEGORIES.BASIC (analyze ctx0 (fun i => i == 0)).seo = none
  ∧ (analyze ctx0 (fun i => i == 0)).seo.map Prod.fst
      = [SEO_CATEGORIES.OPEN_GRAPH, SEO_CATEGORIES.TWITTER, SEO_CATEGORIES.SCHEMA
        , SEO_CATEGORIES.TECHNICAL, SEO_CATEGORIES.LINKS, SEO_CATEGORIES.HEADINGS
        , SEO_CATEGORIES.IMAGES, SEO_CATEGORIES.PERFORMANCE] :=
  ⟨rfl, rfl⟩

/-- C3, amended.  Every extractor failure is caught: the pipeline always
returns a report whose `seo` object is exactly the sections of the
non-failing steps in pipeline order; a non-failing step's category key
maps to its payload, and a failing step's category key is ABSENT from the
report (each section is written only as its extractor's final statement,
so there is no partial state — the key is simply omitted).  This holds
for every failure pattern, including all nine extractors failing. -/
theorem analyze_failure_isolation (ctx : Ctx) (fails : Nat → Bool) :
    analyze ctx fails
      = { url := ctx.url
        , seo := ((pipelinePairs ctx).enum.filter (fun q => !fails q.1)).map Prod.snd }
  ∧ (∀ (i : Nat) (k : String) (v : Section), (pipelinePairs ctx).get? i = some (k, v) →
      fails i = false → objGet k (analyze ctx fails).seo = some v)
  ∧ (∀ (i : Nat) (k : String) (v : Section), (pipelinePairs ctx).get? i = some (k, v) →
      fails i = true → objGet k (analyze ctx fails).seo = none) := by
  have hc := analyze_seo_eq ctx fails
  refine ⟨?_, ?_, ?_⟩
  · exact congrArg (fun s => Report.mk ctx.url s) hc
  · intro i k v hg hf
    rw [hc]
    have h2 := objGet_enumFilter_get? fails (pipelinePairs ctx) 0 i k v
      (pipelinePairs_keys_pairwise ctx) hg
    rw [Nat.zero_add, hf] at h2
    simp only [Bool.false_eq_true, if_false] at h2
    exact h2
  · intro i k v hg hf
    rw [hc]
    have h2 := objGet_enumFilter_get? fails (pipelinePairs ctx) 0 i k v
      (pipelinePairs_keys_pairwise ctx) hg
    rw [Nat.zero_add, hf] at h2
    rw [if_pos rfl] at h2
    exact h2

/-- C3, witness: with the second extractor failing over the empty
document, `basic` is present with its payload and `open_graph` is
absent. -/
theorem analyze_failure_isolation_witness :
    objGet SEO_CATEGORIES.BASIC (analyze ctx0 (fun i => i == 1)).seo
      = some (Section.basicS (basicSection emptyDoc))
  ∧ objGet SEO_CATEGORIES.OPEN_GRAPH (analyze ctx0 (fun i => i == 1)).seo = none := by
  have h := analyze_failure_isolation ctx0 (fun i => i == 1)
  exact ⟨h.2.1 0 SEO_CATEGORIES.BASIC (Section.basicS (basicSection emptyDoc)) rfl rfl
       , h.2.2 1 SEO_CATEGORIES.OPEN_GRAPH (Section.ogS (openGraphSection emptyDoc)) rfl rfl⟩

/-- Keeping everything while filtering an enumeration and dropping the
indices gives back the original list. -/
lemma enum_filter_true_map_snd {α : Type} (l : List α) :
    ∀ n : Nat, ((l.enumFrom n).filter (fun _ => true)).map Prod.snd = l := by
  induction l with
  | nil => intro n; rfl
  | cons x xs ih =>
    intro n
    rw [show ((x :: xs).enumFrom n) = (n, x) :: (xs.enumFrom (n + 1)) from rfl
      , List.filter_cons, if_pos rfl, List.map_cons]
    rw [ih (n + 1)]

/-- C4.  For every input document (and collaborators), a run with no
extractor failure produces a report whose `seo` object holds exactly the
nine category keys, in extraction order, each bound to its section
payload — the key is present even when the page has no matching elements,
since every section is built unconditionally. -/
theorem analyze_all_categories_present (ctx : Ctx) :
    (analyze ctx (fun _ => false)).seo.map Prod.fst
      = [SEO_CATEGORIES.BASIC, SEO_CATEGORIES.OPEN_GRAPH, SEO_CATEGORIES.TWITTER
        , SEO_CATEGORIES.SCHEMA, SEO_CATEGORIES.TECHNICAL, SEO_CATEGORIES.LINKS
        , SEO_CATEGORIES.HEADINGS, SEO_CATEGORIES.IMAGES, SEO_CATEGORIES.PERFORMANCE]
  ∧ objGet SEO_CATEGORIES.BASIC (analyze ctx (fun _ => false)).seo
      = some (Section.basicS (basicSection ctx.doc))
  ∧ objGet SEO_CATEGORIES.OPEN_GRAPH (analyze ctx (fun _ => false)).seo
      = some (Section.ogS (openGraphSection ctx.doc))
  ∧ objGet SEO_CATEGORIES.TWITTER (analyze ctx (fun _ => false)).seo
      = some (Section.twitterS (twitterSection ctx.doc))
  ∧ objGet SEO_CATEGORIES.SCHEMA (analyze ctx (fun _ => false)).seo
      = some (Section.schemaS (schemaSection ctx))
  ∧ objGet SEO_CATEGORIES.TECHNICAL (analyze ctx (fun _ => false)).seo
      = some (Section.technicalS (technicalSection ctx.doc))
  ∧ objGet SEO_CATEGORIES.LINKS (analyze ctx (fun _ => false)).seo
      = some (Section.linksS (linksSection ctx))
  ∧ objGet SEO_CATEGORIES.HEADINGS (analyze ctx (fun _ => false)).seo
      = some (Section.headingsS (headingsSection ctx.doc))
  ∧ objGet SEO_CATEGORIES.IMAGES (analyze ctx (fun _ => false)).seo
      = some (Section.imagesS (imagesSection ctx.doc))
  ∧ objGet SEO_CATEGORIES.PERFORMANCE (analyze ctx (fun _ => false)).seo
      = some (Section.perfS (performanceSection ctx.doc)) := by
  have hseo : (analyze ctx (fun _ => false)).seo = pipelinePairs ctx := by
    rw [analyze_seo_eq]
    exact enum_filter_true_map_snd (pipelinePairs ctx) 0
  refine ⟨?_, ?_, ?_, ?_, ?_, ?_, ?_, ?_, ?_, ?_⟩ <;> rw [hseo] <;> rfl

end HeadHunt
